import Mathlib

/-!
Harbor controllers: repository listing and password flows

A shallow embedding of `api/repository.go` (`RepositoryAPI.Prepare`, `Get`,
`GetTags`, `GetManifests`) and `controllers/password.go`
(`CommonController.UpdatePassword`, `ResetPassword`).

Conventions.

* A handler run is a list of observable events (`Event`), in program order:
  responses written, collaborator calls, and the way control left the handler.
  `beego.Error` / `beego.Warning` log lines are not observable and are dropped.
* `RenderError` writes an error response and returns to the caller;
  `CustomAbort` writes a response and unwinds the handler, so it is always the
  last event of a run.
* Go strings are byte strings.  They are modelled by `String`; every search
  here looks for the single byte `/` or for a whole query string, and on UTF-8
  text the byte-level search and slicing agree with the character-level ones.
* A Go `nil` slice and an empty slice are both the empty list.
* A `float64` value is the rational it denotes; every `float64` operation is
  the exact operation followed by rounding to nearest, ties to even.
* Collaborators whose code is outside the two files (DAO, cache, registry
  client, JSON decoder, clock) are fields of an environment record.
-/

namespace Harbor

/-! ## Go string primitives used by the handlers -/

/-- Go `strings.Index(s, substr)`: index of the first occurrence of `substr` in `s`, or `-1`. -/
def stringsIndex : List Char → List Char → Int
  | [], substr => if substr.isEmpty then 0 else -1
  | c :: t, substr =>
    if substr.isPrefixOf (c :: t) then 0
    else
      let i := stringsIndex t substr
      if 0 ≤ i then i + 1 else -1

/-- Go `strings.Contains(s, substr)`, which is `strings.Index(s, substr) >= 0`. -/
def stringsContains (s substr : String) : Bool :=
  decide (0 ≤ stringsIndex s.data substr.data)

/-- Go `strings.LastIndex(s, substr)` on the underlying sequences:
index of the last occurrence of `substr` in `s`, or `-1`. -/
def lastIndexData : List Char → List Char → Int
  | [], substr => if substr.isEmpty then 0 else -1
  | c :: t, substr =>
    let i := lastIndexData t substr
    if 0 ≤ i then i + 1
    else if substr.isPrefixOf (c :: t) then 0 else -1

/-- Go `strings.LastIndex(s, substr)`. -/
def stringsLastIndex (s substr : String) : Int :=
  lastIndexData s.data substr.data

/-- Go `len(s)`. -/
def len (s : String) : Int := s.data.length

/-- Go slice expression `s[lo:hi]`; `none` is the run-time panic
"slice bounds out of range". -/
def slice (s : String) (lo hi : Int) : Option String :=
  if 0 ≤ lo ∧ lo ≤ hi ∧ hi ≤ len s then
    some ⟨(s.data.take hi.toNat).drop lo.toNat⟩
  else none

/-! ## Data model -/

/-- Modelled from the spec: `models.Project` is declared outside the two files;
the handlers read its `Name` and its visibility flag `Public`. -/
structure Project where
  ProjectID : Int
  Name : String
  Public : Int
  deriving DecidableEq, Repr

/-- Modelled from the spec: `models.User` is declared outside the two files;
fields are those the handlers and the spec name. -/
structure User where
  UserID : Int := 0
  Username : String := ""
  Email : String := ""
  Password : String := ""
  Salt : String := ""
  ResetUUID : String := ""
  deriving DecidableEq, Repr

/-- Modelled from the spec: `models.RepoItem` is declared outside the two files;
`Created` is a point in time (nanoseconds on some fixed scale), the two derived
display fields are strings, `Meta` stands for the free-form remainder. -/
structure RepoItem where
  Created : Int := 0
  CreatedStr : String := ""
  DurationDays : String := ""
  Meta : String := ""
  deriving DecidableEq, Repr

/-- The Go struct `histroyItem`. -/
structure histroyItem where
  V1Compatibility : String
  deriving DecidableEq, Repr

/-- The Go struct `manifest`. -/
structure manifest where
  Name : String := ""
  Tag : String := ""
  Architecture : String := ""
  SchemaVersion : Int := 0
  History : List histroyItem := []
  deriving DecidableEq, Repr

/-- The Go struct `tag`. -/
structure tag where
  Name : String := ""
  Tags : List String := []
  deriving DecidableEq, Repr

/-- What a handler stores in `Data["json"]`. -/
inductive JsonBody where
  | names (l : List String)
  | item (i : RepoItem)
  deriving DecidableEq, Repr

/-- A value stored in the session under a key: nothing, an `int`, or a value
of another dynamic type. -/
inductive SessionValue where
  | absent
  | int (n : Int)
  | other (s : String)
  deriving DecidableEq, Repr

/-- Observable steps of a handler run. -/
inductive Event where
  /-- Call `RenderError(status, text)`: the error response is written, control returns. -/
  | renderError (status : Nat) (text : String)
  /-- Call `CustomAbort(status, body)`: the response is written and the handler unwinds. -/
  | customAbort (status : Nat) (body : String)
  /-- Statements `Data["json"] = body; ServeJSON()`. -/
  | serveJSON (body : JsonBody)
  /-- The call `svc_utils.GetRepoFromCache()`. -/
  | readCache
  /-- The call `svc_utils.RegistryAPIGet(url, username)`. -/
  | registryGet (url username : String)
  /-- The call `dao.CheckUserPassword(query)`. -/
  | checkUserPassword (query : User)
  /-- The call `dao.ChangeUserPassword(u, oldPassword)`. -/
  | changeUserPassword (u : User) (oldPassword : String)
  /-- The call `dao.GetUser(query)`. -/
  | getUser (query : User)
  /-- The call `dao.ResetUserPassword(u)`. -/
  | resetUserPassword (u : User)
  /-- A Go run-time panic (index or slice out of range, failed type assertion). -/
  | runtimePanic (what : String)
  deriving DecidableEq, Repr

/-! ## `api/repository.go` -/

/-- Collaborators and request data of `RepositoryAPI`. -/
structure RepoEnv where
  /-- Value of `ra.GetSession("userId")`. -/
  sessionUserId : SessionValue
  /-- Value of `ra.GetSession("username").(string)`, `none` when the assertion fails. -/
  sessionUsername : Option String
  /-- The constant `dao.NonExistUserID`. -/
  NonExistUserID : Int
  /-- Result of `ra.GetInt64("project_id")`. -/
  projectIdParam : Except String Int
  /-- Value of `ra.GetString("q")`. -/
  q : String
  /-- Value of `ra.GetString("repo_name")`. -/
  repoName : String
  /-- Value of `ra.GetString("tag")`. -/
  tagParam : String
  /-- Function `dao.GetProjectByID`. -/
  GetProjectByID : Int → Except String (Option Project)
  /-- Function `checkProjectPermission(userID, projectID)`. -/
  checkProjectPermission : Int → Int → Bool
  /-- Result of `svc_utils.GetRepoFromCache()`: the list and the error value. -/
  GetRepoFromCache : List String × Option String
  /-- Function `svc_utils.BuildRegistryURL`. -/
  BuildRegistryURL : String → String → String → String
  /-- Function `svc_utils.RegistryAPIGet(url, username)`. -/
  RegistryAPIGet : String → String → Except String String
  /-- Decoder `json.Unmarshal(result, &t)` into a `tag`: the filled value and the error. -/
  unmarshalTag : String → tag × Option String
  /-- Decoder `json.Unmarshal(result, &mani)` into a `manifest`. -/
  unmarshalManifest : String → manifest × Option String
  /-- Decoder `json.Unmarshal([]byte(v1Compatibility), &item)` into a `RepoItem`. -/
  unmarshalRepoItem : String → RepoItem × Option String
  /-- Function `t.Format("2006-01-02 15:04:05")`. -/
  formatTime : Int → String
  /-- Function `time.Since(t)`: a `time.Duration`, a signed count of nanoseconds. -/
  timeSince : Int → Int

/-- The receiver fields of `RepositoryAPI`. -/
structure RepositoryAPI where
  userID : Int
  username : String
  deriving DecidableEq, Repr

/-- Handler `RepositoryAPI.Prepare`. -/
def RepositoryAPI.Prepare (env : RepoEnv) : RepositoryAPI :=
  { userID :=
      match env.sessionUserId with
      | .int userID => userID
      | _ => env.NonExistUserID
    username :=
      match env.sessionUsername with
      | some username => username
      | none => "" }

/-- The loop condition of the `len(q) > 0` branch of `Get`:
`strings.Contains(r, "/") && strings.Contains(r[strings.LastIndex(r, "/")+1:], q)
 && r[0:strings.LastIndex(r, "/")] == projectName`, with `&&` short-circuiting;
`none` is a slice panic. -/
def keepWithQuery (projectName q r : String) : Option Bool :=
  if stringsContains r "/" then
    match slice r (stringsLastIndex r "/" + 1) (len r) with
    | none => none
    | some leaf =>
      if stringsContains leaf q then
        match slice r 0 (stringsLastIndex r "/") with
        | none => none
        | some pre => some (pre == projectName)
      else some false
  else some false

/-- The loop condition of the `len(projectName) > 0` branch of `Get`:
`strings.Contains(r, "/") && r[0:strings.LastIndex(r, "/")] == projectName`. -/
def keepByProject (projectName r : String) : Option Bool :=
  if stringsContains r "/" then
    match slice r 0 (stringsLastIndex r "/") with
    | none => none
    | some pre => some (pre == projectName)
  else some false

/-- The statement `for _, r := range repoList { if cond(r) { resp = append(resp, r) } }`
started with `resp`; `none` when evaluating the condition panics. -/
def rangeAppend (cond : String → Option Bool) : List String → List String → Option (List String)
  | [], resp => some resp
  | r :: rest, resp =>
    match cond r with
    | none => none
    | some true => rangeAppend cond rest (resp ++ [r])
    | some false => rangeAppend cond rest resp

/-- Lines 86-105 of `Get`: the value stored in `Data["json"]`. -/
def selectRepos (projectName q : String) (repoList : List String) : Option (List String) :=
  if len q > 0 then rangeAppend (keepWithQuery projectName q) repoList []
  else if len projectName > 0 then rangeAppend (keepByProject projectName) repoList []
  else some repoList

/-- Handler `RepositoryAPI.Get`. -/
def RepositoryAPI.Get (env : RepoEnv) (ra : RepositoryAPI) : List Event :=
  match env.projectIdParam with
  | .error _ => [.renderError 400 "Invalid project id"]
  | .ok projectID =>
    match env.GetProjectByID projectID with
    | .error _ => [.customAbort 500 "Internal error."]
    | .ok none => [.renderError 404 ""]
    | .ok (some p) =>
      if p.Public == 0 && !env.checkProjectPermission ra.userID projectID then
        [.renderError 403 ""]
      else
        let repoList := env.GetRepoFromCache.1
        let cacheErr : List Event :=
          match env.GetRepoFromCache.2 with
          | some _ => [.renderError 500 "internal sever error"]
          | none => []
        match selectRepos p.Name env.q repoList with
        | none => [.readCache] ++ cacheErr ++ [.runtimePanic "slice bounds out of range"]
        | some body => [.readCache] ++ cacheErr ++ [.serveJSON (.names body)]

/-- Handler `RepositoryAPI.GetTags`. -/
def RepositoryAPI.GetTags (env : RepoEnv) (ra : RepositoryAPI) : List Event :=
  let url := env.BuildRegistryURL env.repoName "tags" "list"
  match env.RegistryAPIGet url ra.username with
  | .error _ =>
    [.registryGet url ra.username, .renderError 500 "Failed to get repo tags",
     .serveJSON (.names [])]
  | .ok result =>
    [.registryGet url ra.username, .serveJSON (.names (env.unmarshalTag result).1.Tags)]

/-- Go `time.Hour`, in nanoseconds. -/
def Hour : Int := 60 * 60 * 1000000000

/-- Rounding of a rational to the nearest integer, ties to the even one
(the IEEE 754 default rounding direction). -/
def roundHalfEven (x : ℚ) : Int :=
  if x - ⌊x⌋ < 1 / 2 then ⌊x⌋
  else if 1 / 2 < x - ⌊x⌋ then ⌊x⌋ + 1
  else if ⌊x⌋ % 2 = 0 then ⌊x⌋ else ⌊x⌋ + 1

/-- The `float64` (IEEE 754 binary64) value of an exact result `x`: `x` rounded
to the nearest multiple of the unit in the last place of its binade, a 53-bit
significand, ties to even; below the smallest normal number the unit is that of
the subnormals.  A `float64` value is carried as the rational it denotes.
Overflow to infinity is left out: the values of line 174 stay below `2 ^ 63`. -/
def float64 (x : ℚ) : ℚ :=
  if x = 0 then 0
  else
    let e := max (Int.log 2 |x|) (-1022)
    (roundHalfEven (x / 2 ^ (e - 52)) : ℚ) * 2 ^ (e - 52)

/-- Go `Duration.Hours()`:
`hour := d / Hour; nsec := d % Hour; return float64(hour) + float64(nsec)/(60*60*1e9)`,
with Go's truncating integer division and remainder, the two conversions to
`float64`, the `float64` quotient by the constant `3.6e12` and the `float64`
sum, each rounded. -/
def Hours (d : Int) : ℚ :=
  float64 (float64 (Int.tdiv d Hour) +
    float64 (float64 (Int.tmod d Hour) / (60 * 60 * 1000000000)))

/-- Go conversion `int(x)` of a floating-point value: the fraction is discarded
(truncation toward zero). -/
def toInt (x : ℚ) : Int := if 0 ≤ x then ⌊x⌋ else ⌈x⌉

/-- Go `strconv.Itoa`: decimal rendering, with a leading `-` for negatives. -/
def strconvItoa : Int → String
  | .ofNat n => Nat.repr n
  | .negSucc n => "-" ++ Nat.repr (n + 1)

/-- Line 174 of `GetManifests`, on `d = time.Since(item.Created)`:
`strconv.Itoa(int(d.Hours()/24)) + " days"`, the quotient by 24 a rounded
`float64` division. -/
def durationDays (d : Int) : String :=
  strconvItoa (toInt (float64 (Hours d / 24))) ++ " days"

/-- Handler `RepositoryAPI.GetManifests`. -/
def RepositoryAPI.GetManifests (env : RepoEnv) (ra : RepositoryAPI) : List Event :=
  let url := env.BuildRegistryURL env.repoName "manifests" env.tagParam
  match env.RegistryAPIGet url ra.username with
  | .error _ => [.registryGet url ra.username, .renderError 500 "Internal Server Error"]
  | .ok result =>
    match env.unmarshalManifest result with
    | (_, some _) => [.registryGet url ra.username, .renderError 500 "Internal Server Error"]
    | (mani, none) =>
      match mani.History with
      | [] =>
        [.registryGet url ra.username, .runtimePanic "index out of range [0] with length 0"]
      | h0 :: _ =>
        match env.unmarshalRepoItem h0.V1Compatibility with
        | (_, some _) =>
          [.registryGet url ra.username, .renderError 500 "Internal Server Error"]
        | (item, none) =>
          [.registryGet url ra.username,
           .serveJSON (.item { item with
             CreatedStr := env.formatTime item.Created
             DurationDays := durationDays (env.timeSince item.Created) })]

/-! ## `controllers/password.go` -/

/-- Request data and DAO of `CommonController`, over a store of type `σ`.
The two look-ups read the store; the two updates return the new store and the
error value. -/
structure PasswordEnv (σ : Type) where
  /-- Value of `cc.GetSession("userId")`. -/
  sessionUserId : SessionValue
  /-- Value of `cc.GetString("old_password")`. -/
  oldPassword : String
  /-- Value of `cc.GetString("password")`. -/
  password : String
  /-- Value of `cc.GetString("reset_uuid")`. -/
  resetUUID : String
  /-- Function `dao.CheckUserPassword`. -/
  CheckUserPassword : σ → User → Except String (Option User)
  /-- Function `dao.ChangeUserPassword`. -/
  ChangeUserPassword : σ → User → String → σ × Option String
  /-- Function `dao.GetUser`. -/
  GetUser : σ → User → Except String (Option User)
  /-- Function `dao.ResetUserPassword`. -/
  ResetUserPassword : σ → User → σ × Option String

/-- Handler `CommonController.UpdatePassword`: the events and the store afterwards. -/
def UpdatePassword {σ : Type} (env : PasswordEnv σ) (store : σ) : List Event × σ :=
  match env.sessionUserId with
  | .absent => ([.customAbort 401 "please_login_first"], store)
  | sessionUserID =>
    if env.oldPassword == "" then ([.customAbort 400 "Old password is blank"], store)
    else
      match sessionUserID with
      | .int userID =>
        let queryUser : User := { UserID := userID, Password := env.oldPassword }
        match env.CheckUserPassword store queryUser with
        | .error _ => ([.checkUserPassword queryUser, .customAbort 500 "Internal error."], store)
        | .ok none =>
          ([.checkUserPassword queryUser, .customAbort 403 "old_password_is_not_correct"], store)
        | .ok (some user) =>
          if env.password != "" then
            let updateUser : User :=
              { UserID := userID, Password := env.password, Salt := user.Salt }
            match env.ChangeUserPassword store updateUser env.oldPassword with
            | (store', some _) =>
              ([.checkUserPassword queryUser, .changeUserPassword updateUser env.oldPassword,
                .customAbort 500 "Internal error."], store')
            | (store', none) =>
              ([.checkUserPassword queryUser, .changeUserPassword updateUser env.oldPassword],
               store')
          else
            ([.checkUserPassword queryUser, .customAbort 400 "please_input_new_password"], store)
      | _ => ([.runtimePanic "interface conversion: interface is not int"], store)

/-- Handler `CommonController.ResetPassword`: the events and the store afterwards. -/
def ResetPassword {σ : Type} (env : PasswordEnv σ) (store : σ) : List Event × σ :=
  if env.resetUUID == "" then ([.customAbort 400 "Reset uuid is blank."], store)
  else
    let queryUser : User := { ResetUUID := env.resetUUID }
    match env.GetUser store queryUser with
    | .error _ => ([.getUser queryUser, .customAbort 500 "Internal error."], store)
    | .ok none => ([.getUser queryUser, .customAbort 400 "User does not exist"], store)
    | .ok (some user) =>
      if env.password != "" then
        let user' : User := { user with Password := env.password }
        match env.ResetUserPassword store user' with
        | (store', some _) =>
          ([.getUser queryUser, .resetUserPassword user', .customAbort 500 "Internal error."],
           store')
        | (store', none) => ([.getUser queryUser, .resetUserPassword user'], store')
      else ([.getUser queryUser, .customAbort 400 "password_is_required"], store)

/-! ## The specification's vocabulary -/

/-- Spec reading of "the text of `r` before its last `/` is `pre`, the segment
after it is `leaf`": `r` is `pre`, a `/`, then `leaf`, and `leaf` has no `/`. -/
def LastSlashSplit (r pre leaf : String) : Prop :=
  r = pre ++ "/" ++ leaf ∧ '/' ∉ leaf.data

/-- Spec reading of "`q` is a substring of `s`". -/
def IsSubstring (q s : String) : Prop := q.data <:+: s.data

/-- The request passes the checks of lines 61-80 of `Get` on project `p`:
`project_id` parses, the DAO returns `p` for it, and `p` is public or the caller
has permission. -/
def ReadableProject (env : RepoEnv) (ra : RepositoryAPI) (p : Project) : Prop :=
  ∃ projectID,
    env.projectIdParam = .ok projectID ∧
    env.GetProjectByID projectID = .ok (some p) ∧
    (p.Public ≠ 0 ∨ env.checkProjectPermission ra.userID projectID = true)

/-- The request is for a readable project named `P` and the cache read succeeds
with the list `L`. -/
def ListsProject (env : RepoEnv) (ra : RepositoryAPI) (P : String) (L : List String) : Prop :=
  ∃ p, ReadableProject env ra p ∧ p.Name = P ∧ env.GetRepoFromCache = (L, none)

/-- A sample environment: one project with id 1, the given name and visibility
flag, no session, the given cache content and query. -/
def sampleEnv (name : String) (pub : Int) (cache : List String × Option String)
    (q : String) : RepoEnv :=
  { sessionUserId := .absent
    sessionUsername := none
    NonExistUserID := -1
    projectIdParam := .ok 1
    q := q
    repoName := "library/nginx"
    tagParam := "latest"
    GetProjectByID := fun id =>
      if id = 1 then .ok (some { ProjectID := 1, Name := name, Public := pub }) else .ok none
    checkProjectPermission := fun _ _ => false
    GetRepoFromCache := cache
    BuildRegistryURL := fun repo kind ref => "/v2/" ++ repo ++ "/" ++ kind ++ "/" ++ ref
    RegistryAPIGet := fun _ _ => .error "connection refused"
    unmarshalTag := fun _ => ({}, none)
    unmarshalManifest := fun _ => ({}, none)
    unmarshalRepoItem := fun _ => ({}, none)
    formatTime := fun _ => "2016-01-01 00:00:00"
    timeSince := fun _ => 48 * Hour }

/-- A sample environment for `GetManifests`: the registry answers, the manifest
decodes to the given history, the embedded document decodes to an item created
at `0`, and `d` nanoseconds have elapsed since. -/
def sampleManifestEnv (history : List histroyItem) (d : Int) : RepoEnv :=
  { sampleEnv "library" 1 ([], none) "" with
    RegistryAPIGet := fun _ _ =>
      if history.isEmpty then .ok "\x7b\"name\":\"library/nginx\",\"history\":[]\x7d"
      else .ok "\x7b\"name\":\"library/nginx\",\"history\":[...]\x7d"
    unmarshalManifest := fun _ => ({ Name := "library/nginx", History := history }, none)
    unmarshalRepoItem := fun _ => ({ Created := 0, Meta := "nginx" }, none)
    timeSince := fun _ => d }

/-- A sample password environment over a store holding one user
(id 1, the stored password): look-ups compare against the stored password or
the stored reset token `tok-1`, updates overwrite the stored password. -/
def samplePasswordEnv (session : SessionValue) (oldPassword password resetUUID : String) :
    PasswordEnv String :=
  { sessionUserId := session
    oldPassword := oldPassword
    password := password
    resetUUID := resetUUID
    CheckUserPassword := fun store query =>
      if query.UserID = 1 ∧ query.Password = store then
        .ok (some { UserID := 1, Username := "alice", Password := store, Salt := "salt" })
      else .ok none
    ChangeUserPassword := fun _ u _ => (u.Password, none)
    GetUser := fun store query =>
      if query.ResetUUID = "tok-1" then
        .ok (some { UserID := 1, Username := "alice", Password := store, ResetUUID := "tok-1" })
      else .ok none
    ResetUserPassword := fun _ u => (u.Password, none) }

end Harbor

namespace Harbor

/-! ## The string primitives meet their Go documentation -/

theorem stringsIndex_nonneg_iff (s substr : List Char) :
    0 ≤ stringsIndex s substr ↔ substr <:+: s := by
  induction s with
  | nil =>
    by_cases h : substr = []
    · subst h; simp [stringsIndex]
    · have he : substr.isEmpty = false := by
        cases substr with
        | nil => exact absurd rfl h
        | cons _ _ => rfl
      simp [stringsIndex, he, h]
  | cons c t ih =>
    rw [List.infix_cons_iff, ← ih]
    by_cases hp : substr.isPrefixOf (c :: t) = true
    · have hp' : substr <+: c :: t := List.isPrefixOf_iff_prefix.mp hp
      simp [stringsIndex, hp, hp']
    · have hp' : ¬ substr <+: c :: t := fun h => hp (List.isPrefixOf_iff_prefix.mpr h)
      by_cases hi : 0 ≤ stringsIndex t substr
      · have : 0 ≤ stringsIndex t substr + 1 := by omega
        simp [stringsIndex, hp, hp', hi, this]
      · simp [stringsIndex, hp, hp', hi]

theorem singleton_infix_iff_mem (a : Char) (l : List Char) : [a] <:+: l ↔ a ∈ l := by
  constructor
  · rintro ⟨s, t, h⟩
    rw [← h]
    simp
  · intro h
    obtain ⟨s, t, rfl⟩ := List.append_of_mem h
    exact ⟨s, t, by simp⟩

theorem lastIndexData_of_not_mem (a : Char) (l : List Char) (h : a ∉ l) :
    lastIndexData l [a] = -1 := by
  induction l with
  | nil => rfl
  | cons c t ih =>
    have hc : a ≠ c := fun e => h (by simp [e])
    have ht : a ∉ t := fun e => h (by simp [e])
    simp [lastIndexData, ih ht, List.isPrefixOf, hc]

theorem lastIndexData_split (a : Char) (p l : List Char) (h : a ∉ l) :
    lastIndexData (p ++ a :: l) [a] = p.length := by
  induction p with
  | nil => simp [lastIndexData, lastIndexData_of_not_mem a l h, List.isPrefixOf]
  | cons c p ih =>
    have h0 : (0 : Int) ≤ (p.length : Int) := Int.ofNat_nonneg _
    show (if 0 ≤ lastIndexData (p ++ a :: l) [a] then lastIndexData (p ++ a :: l) [a] + 1
      else if [a].isPrefixOf (c :: (p ++ a :: l)) = true then 0 else -1) = _
    rw [ih]
    simp [h0]

theorem exists_last_split (a : Char) (s : List Char) (h : a ∈ s) :
    ∃ p l, s = p ++ a :: l ∧ a ∉ l := by
  induction s with
  | nil => simp at h
  | cons c t ih =>
    by_cases ht : a ∈ t
    · obtain ⟨p, l, hs, hl⟩ := ih ht
      exact ⟨c :: p, l, by simp [hs], hl⟩
    · have hc : a = c := by
        rcases List.mem_cons.mp h with e | e
        · exact e
        · exact absurd e ht
      exact ⟨[], t, by simp [hc], ht⟩

theorem stringsContains_iff (s substr : String) :
    stringsContains s substr = true ↔ substr.data <:+: s.data := by
  simp [stringsContains, stringsIndex_nonneg_iff]

theorem stringsContains_slash_iff (r : String) :
    stringsContains r "/" = true ↔ '/' ∈ r.data := by
  rw [stringsContains_iff]
  exact singleton_infix_iff_mem '/' r.data

theorem stringsLastIndex_split (r : String) (p l : List Char)
    (hr : r.data = p ++ '/' :: l) (hl : '/' ∉ l) :
    stringsLastIndex r "/" = p.length := by
  unfold stringsLastIndex
  rw [hr]
  exact lastIndexData_split '/' p l hl

theorem slice_before (r : String) (p l : List Char) (hr : r.data = p ++ '/' :: l) :
    slice r 0 (p.length : Int) = some ⟨p⟩ := by
  have h : (p.length : Int) ≤ len r := by
    simp only [len, hr, List.length_append, List.length_cons]
    omega
  have h0 : (0 : Int) ≤ (p.length : Int) := Int.ofNat_nonneg _
  simp [slice, h, h0, hr]

theorem slice_after (r : String) (p l : List Char) (hr : r.data = p ++ '/' :: l) :
    slice r ((p.length : Int) + 1) (len r) = some ⟨l⟩ := by
  have h1 : (0 : Int) ≤ (p.length : Int) + 1 := by omega
  have h2 : (p.length : Int) + 1 ≤ len r := by
    simp only [len, hr, List.length_append, List.length_cons]
    omega
  have h3 : ((p.length : Int) + 1).toNat = p.length + 1 := by omega
  have h4 : (len r).toNat = r.data.length := by simp [len]
  simp only [slice, h1, h2, le_refl, and_self, if_true, h3, h4, List.take_length]
  congr 2
  rw [hr, show p ++ '/' :: l = (p ++ ['/']) ++ l by simp]
  exact List.drop_left' (by simp)

end Harbor

namespace Harbor

/-! ## The two loop conditions of `Get` -/

theorem keepByProject_of_no_slash (P r : String) (h : '/' ∉ r.data) :
    keepByProject P r = some false := by
  have hc : stringsContains r "/" = false := by
    rw [← Bool.not_eq_true, stringsContains_slash_iff]
    exact h
  simp [keepByProject, hc]

theorem keepByProject_of_split (P r : String) (p l : List Char)
    (hr : r.data = p ++ '/' :: l) (hl : '/' ∉ l) :
    keepByProject P r = some ((⟨p⟩ : String) == P) := by
  have hc : stringsContains r "/" = true := by
    rw [stringsContains_slash_iff, hr]
    simp
  simp [keepByProject, hc, stringsLastIndex_split r p l hr hl, slice_before r p l hr]

theorem keepWithQuery_of_no_slash (P q r : String) (h : '/' ∉ r.data) :
    keepWithQuery P q r = some false := by
  have hc : stringsContains r "/" = false := by
    rw [← Bool.not_eq_true, stringsContains_slash_iff]
    exact h
  simp [keepWithQuery, hc]

theorem keepWithQuery_of_split (P q r : String) (p l : List Char)
    (hr : r.data = p ++ '/' :: l) (hl : '/' ∉ l) :
    keepWithQuery P q r = some (stringsContains ⟨l⟩ q && ((⟨p⟩ : String) == P)) := by
  have hc : stringsContains r "/" = true := by
    rw [stringsContains_slash_iff, hr]
    simp
  simp only [keepWithQuery, hc, if_true, stringsLastIndex_split r p l hr hl,
    slice_before r p l hr, slice_after r p l hr]
  cases stringsContains ⟨l⟩ q <;> simp

theorem data_of_split {r pre leaf : String} (h : r = pre ++ "/" ++ leaf) :
    r.data = pre.data ++ '/' :: leaf.data := by
  rw [h]
  simp [String.data_append]

theorem keepByProject_spec (P r : String) :
    ∃ b, keepByProject P r = some b ∧ (b = true ↔ ∃ leaf, LastSlashSplit r P leaf) := by
  by_cases hs : '/' ∈ r.data
  · obtain ⟨p, l, hr, hl⟩ := exists_last_split '/' r.data hs
    refine ⟨_, keepByProject_of_split P r p l hr hl, ?_⟩
    constructor
    · intro hb
      have hP : (⟨p⟩ : String) = P := by simpa using hb
      refine ⟨⟨l⟩, String.ext ?_, hl⟩
      rw [← hP, hr]
      simp [String.data_append]
    · rintro ⟨leaf, hsplit, hleaf⟩
      have h1 := keepByProject_of_split P r P.data leaf.data (data_of_split hsplit) hleaf
      have h2 := keepByProject_of_split P r p l hr hl
      rw [h1] at h2
      rw [← Option.some.inj h2]
      simp
  · refine ⟨false, keepByProject_of_no_slash P r hs, ?_⟩
    constructor
    · intro h
      cases h
    · rintro ⟨leaf, hsplit, -⟩
      exact absurd (by rw [data_of_split hsplit]; simp) hs

theorem keepWithQuery_spec (P q r : String) :
    ∃ b, keepWithQuery P q r = some b ∧
      (b = true ↔ ∃ leaf, LastSlashSplit r P leaf ∧ IsSubstring q leaf) := by
  by_cases hs : '/' ∈ r.data
  · obtain ⟨p, l, hr, hl⟩ := exists_last_split '/' r.data hs
    refine ⟨_, keepWithQuery_of_split P q r p l hr hl, ?_⟩
    constructor
    · intro hb
      rw [Bool.and_eq_true] at hb
      have hP : (⟨p⟩ : String) = P := by simpa using hb.2
      refine ⟨⟨l⟩, ⟨String.ext ?_, hl⟩, (stringsContains_iff ⟨l⟩ q).mp hb.1⟩
      rw [← hP, hr]
      simp [String.data_append]
    · rintro ⟨leaf, ⟨hsplit, hleaf⟩, hq⟩
      have h1 := keepWithQuery_of_split P q r P.data leaf.data (data_of_split hsplit) hleaf
      have h2 := keepWithQuery_of_split P q r p l hr hl
      rw [h1] at h2
      rw [← Option.some.inj h2]
      have hq' : stringsContains ⟨leaf.data⟩ q = true := (stringsContains_iff _ q).mpr hq
      simp [hq']
  · refine ⟨false, keepWithQuery_of_no_slash P q r hs, ?_⟩
    constructor
    · intro h
      cases h
    · rintro ⟨leaf, ⟨hsplit, -⟩, -⟩
      exact absurd (by rw [data_of_split hsplit]; simp) hs

/-! ## The `range` loop and the response body -/

theorem rangeAppend_eq_filter (cond : String → Option Bool) (keep : String → Bool)
    (h : ∀ r, cond r = some (keep r)) (L resp : List String) :
    rangeAppend cond L resp = some (resp ++ L.filter keep) := by
  induction L generalizing resp with
  | nil => simp [rangeAppend]
  | cons r rest ih =>
    cases hk : keep r with
    | true => simp [rangeAppend, h r, hk, ih]
    | false => simp [rangeAppend, h r, hk, ih]

theorem len_pos_iff (s : String) : len s > 0 ↔ s ≠ "" := by
  constructor
  · intro h e
    rw [e] at h
    exact absurd h (by decide)
  · intro h
    have hd : s.data ≠ [] := fun e => h (String.ext e)
    have : 0 < s.data.length := List.length_pos.mpr hd
    simp only [len, gt_iff_lt]
    omega

theorem Get_of_ListsProject (env : RepoEnv) (ra : RepositoryAPI) (P : String)
    (L : List String) (h : ListsProject env ra P L) :
    RepositoryAPI.Get env ra =
      match selectRepos P env.q L with
      | none => [.readCache, .runtimePanic "slice bounds out of range"]
      | some body => [.readCache, .serveJSON (.names body)] := by
  obtain ⟨p, ⟨projectID, hid, hp, hread⟩, hname, hcache⟩ := h
  have hguard : (p.Public == 0 && !env.checkProjectPermission ra.userID projectID) = false := by
    rcases hread with h1 | h1
    · simp [h1]
    · simp [h1]
  simp only [RepositoryAPI.Get, hid, hp, hguard, hcache, hname]
  cases selectRepos P env.q L <;> simp

end Harbor

namespace Harbor

theorem selectRepos_query (P q : String) (L : List String) (hq : q ≠ "") :
    selectRepos P q L = some (L.filter fun r => (keepWithQuery P q r).getD false) := by
  have hlen : len q > 0 := (len_pos_iff q).mpr hq
  have hcond : ∀ r, keepWithQuery P q r = some ((keepWithQuery P q r).getD false) := by
    intro r
    obtain ⟨b, hb, -⟩ := keepWithQuery_spec P q r
    simp [hb]
  simp only [selectRepos, hlen, if_true]
  simpa using rangeAppend_eq_filter _ _ hcond L []

theorem selectRepos_project (P : String) (L : List String) (hP : P ≠ "") :
    selectRepos P "" L = some (L.filter fun r => (keepByProject P r).getD false) := by
  have hlen : len P > 0 := (len_pos_iff P).mpr hP
  have hq : ¬ len "" > 0 := by decide
  have hcond : ∀ r, keepByProject P r = some ((keepByProject P r).getD false) := by
    intro r
    obtain ⟨b, hb, -⟩ := keepByProject_spec P r
    simp [hb]
  simp only [selectRepos, hq, if_false, hlen, if_true]
  simpa using rangeAppend_eq_filter _ _ hcond L []

theorem selectRepos_all (L : List String) : selectRepos "" "" L = some L := by
  have hq : ¬ len "" > 0 := by decide
  simp [selectRepos, hq]

theorem keepByProject_getD_iff (P r : String) :
    (keepByProject P r).getD false = true ↔ ∃ leaf, LastSlashSplit r P leaf := by
  obtain ⟨b, hb, hspec⟩ := keepByProject_spec P r
  simpa [hb] using hspec

theorem keepWithQuery_getD_iff (P q r : String) :
    (keepWithQuery P q r).getD false = true ↔
      ∃ leaf, LastSlashSplit r P leaf ∧ IsSubstring q leaf := by
  obtain ⟨b, hb, hspec⟩ := keepWithQuery_spec P q r
  simpa [hb] using hspec

theorem slash_mem_of_split {r pre leaf : String} (h : LastSlashSplit r pre leaf) :
    '/' ∈ r.data := by
  rw [data_of_split h.1]
  simp

end Harbor

namespace Harbor

/-! ## Claims on `RepositoryAPI.Get`: the listing -/

/-- C1, as stated, fails when the project name is empty: on a readable project
named `""` with an empty query and cache `["nginx"]`, `Get` serves `["nginx"]`,
an entry with no `/`, for which no split "text before the last `/` equals the
project name" exists. -/
theorem C1_counterexample :
    ListsProject (sampleEnv "" 1 (["nginx"], none) "")
        (RepositoryAPI.Prepare (sampleEnv "" 1 (["nginx"], none) "")) "" ["nginx"] ∧
      (sampleEnv "" 1 (["nginx"], none) "").q = "" ∧
      RepositoryAPI.Get (sampleEnv "" 1 (["nginx"], none) "")
          (RepositoryAPI.Prepare (sampleEnv "" 1 (["nginx"], none) "")) =
        [.readCache, .serveJSON (.names ["nginx"])] ∧
      '/' ∉ "nginx".data ∧
      ¬ ∃ leaf, LastSlashSplit "nginx" "" leaf := by
  refine ⟨⟨_, ⟨1, rfl, rfl, Or.inl (by decide)⟩, rfl, rfl⟩, rfl, by decide, by decide, ?_⟩
  rintro ⟨leaf, hsplit⟩
  exact absurd (slash_mem_of_split hsplit) (by decide)

/-- C1, amended: for every repository list `L` and every non-empty project name
`P`, `Get` with an empty query on a readable project named `P` reads the cache
and serves exactly the entries of `L`, in `L`'s order, whose text before the
last `/` equals `P`; every served entry contains a `/`. -/
theorem C1_get_filters_by_project (env : RepoEnv) (ra : RepositoryAPI) (P : String)
    (L : List String) (h : ListsProject env ra P L) (hq : env.q = "") (hP : P ≠ "") :
    ∃ keep : String → Bool,
      (∀ r, keep r = true ↔ ∃ leaf, LastSlashSplit r P leaf) ∧
      RepositoryAPI.Get env ra = [.readCache, .serveJSON (.names (L.filter keep))] ∧
      ∀ r ∈ L.filter keep, '/' ∈ r.data := by
  refine ⟨fun r => (keepByProject P r).getD false, keepByProject_getD_iff P, ?_, ?_⟩
  · rw [Get_of_ListsProject env ra P L h, hq, selectRepos_project P L hP]
  · intro r hr
    obtain ⟨leaf, hsplit⟩ := (keepByProject_getD_iff P r).mp (List.mem_filter.mp hr).2
    exact slash_mem_of_split hsplit

/-- C1, witness: project `library`, public, cache
`["library/nginx", "library/busybox", "other/x"]`, empty query: the served list
is `["library/nginx", "library/busybox"]`. -/
theorem C1_get_filters_by_project_witness :
    (∃ keep : String → Bool,
      (∀ r, keep r = true ↔ ∃ leaf, LastSlashSplit r "library" leaf) ∧
      RepositoryAPI.Get
          (sampleEnv "library" 1 (["library/nginx", "library/busybox", "other/x"], none) "")
          ⟨7, "alice"⟩ =
        [.readCache, .serveJSON (.names
          (["library/nginx", "library/busybox", "other/x"].filter keep))] ∧
      ∀ r ∈ ["library/nginx", "library/busybox", "other/x"].filter keep, '/' ∈ r.data) ∧
    RepositoryAPI.Get
        (sampleEnv "library" 1 (["library/nginx", "library/busybox", "other/x"], none) "")
        ⟨7, "alice"⟩ =
      [.readCache, .serveJSON (.names ["library/nginx", "library/busybox"])] :=
  ⟨C1_get_filters_by_project
      (sampleEnv "library" 1 (["library/nginx", "library/busybox", "other/x"], none) "")
      ⟨7, "alice"⟩ "library" ["library/nginx", "library/busybox", "other/x"]
      ⟨_, ⟨1, rfl, rfl, Or.inl (by decide)⟩, rfl, rfl⟩ rfl (by decide),
    by decide⟩

/-- C2: for every repository list `L`, project name `P` and non-empty query `q`,
`Get` serves exactly the entries `r` of `L`, in `L`'s order, such that `r`
contains a `/`, the segment after its last `/` contains `q` as a substring, and
the text before its last `/` equals `P`. -/
theorem C2_get_filters_by_query (env : RepoEnv) (ra : RepositoryAPI) (P : String)
    (L : List String) (h : ListsProject env ra P L) (hq : env.q ≠ "") :
    ∃ keep : String → Bool,
      (∀ r, keep r = true ↔
        '/' ∈ r.data ∧ ∃ leaf, LastSlashSplit r P leaf ∧ IsSubstring env.q leaf) ∧
      RepositoryAPI.Get env ra = [.readCache, .serveJSON (.names (L.filter keep))] := by
  refine ⟨fun r => (keepWithQuery P env.q r).getD false, ?_, ?_⟩
  · intro r
    rw [keepWithQuery_getD_iff]
    constructor
    · rintro ⟨leaf, hsplit, hsub⟩
      exact ⟨slash_mem_of_split hsplit, leaf, hsplit, hsub⟩
    · rintro ⟨-, hleaf⟩
      exact hleaf
  · rw [Get_of_ListsProject env ra P L h, selectRepos_query P env.q L hq]

/-- C2, witness: empty project name, query `nginx`, cache
`["library/nginx", "library/busybox", "other/x"]`: the served list is empty. -/
theorem C2_get_filters_by_query_witness :
    (∃ keep : String → Bool,
      (∀ r, keep r = true ↔
        '/' ∈ r.data ∧ ∃ leaf, LastSlashSplit r "" leaf ∧ IsSubstring "nginx" leaf) ∧
      RepositoryAPI.Get
          (sampleEnv "" 1 (["library/nginx", "library/busybox", "other/x"], none) "nginx")
          ⟨7, "alice"⟩ =
        [.readCache, .serveJSON (.names
          (["library/nginx", "library/busybox", "other/x"].filter keep))]) ∧
    RepositoryAPI.Get
        (sampleEnv "" 1 (["library/nginx", "library/busybox", "other/x"], none) "nginx")
        ⟨7, "alice"⟩ =
      [.readCache, .serveJSON (.names [])] :=
  ⟨C2_get_filters_by_query
      (sampleEnv "" 1 (["library/nginx", "library/busybox", "other/x"], none) "nginx")
      ⟨7, "alice"⟩ "" ["library/nginx", "library/busybox", "other/x"]
      ⟨_, ⟨1, rfl, rfl, Or.inl (by decide)⟩, rfl, rfl⟩ (by decide),
    by decide⟩

/-- C7: for every repository list `L`, project name `P` (the empty name
included) and non-empty query `Q`, the list `Get` serves for `(P, Q)` is an
order-preserving sublist of the list it serves for `(P, "")` on the same `L`. -/
theorem C7_query_result_sublist (env : RepoEnv) (ra : RepositoryAPI) (P Q : String)
    (L : List String) (h : ListsProject env ra P L) (hQ : Q ≠ "") :
    ∃ withQuery withoutQuery : List String,
      RepositoryAPI.Get { env with q := Q } ra =
        [.readCache, .serveJSON (.names withQuery)] ∧
      RepositoryAPI.Get { env with q := "" } ra =
        [.readCache, .serveJSON (.names withoutQuery)] ∧
      withQuery.Sublist withoutQuery ∧
      ∀ r ∈ withQuery, r ∈ withoutQuery := by
  have hQenv : ListsProject { env with q := Q } ra P L := h
  have h0env : ListsProject { env with q := "" } ra P L := h
  have e1 := Get_of_ListsProject _ ra P L hQenv
  have e0 := Get_of_ListsProject _ ra P L h0env
  simp only [selectRepos_query P Q L hQ] at e1
  by_cases hP : P = ""
  · subst hP
    simp only [selectRepos_all] at e0
    exact ⟨_, _, e1, e0, List.filter_sublist L, fun r hr => (List.mem_filter.mp hr).1⟩
  · simp only [selectRepos_project P L hP] at e0
    have hmono : ∀ r, (keepWithQuery P Q r).getD false = true →
        (keepByProject P r).getD false = true := by
      intro r hr
      obtain ⟨leaf, hsplit, -⟩ := (keepWithQuery_getD_iff P Q r).mp hr
      exact (keepByProject_getD_iff P r).mpr ⟨leaf, hsplit⟩
    have hsub := List.monotone_filter_right L hmono
    exact ⟨_, _, e1, e0, hsub, fun r hr => hsub.subset hr⟩

/-- C7, witness: empty project name, query `x`, cache `["/x", "nginx", "a/x"]`. -/
theorem C7_query_result_sublist_witness :
    ∃ withQuery withoutQuery : List String,
      RepositoryAPI.Get { sampleEnv "" 1 (["/x", "nginx", "a/x"], none) "" with q := "x" }
          ⟨7, "alice"⟩ =
        [.readCache, .serveJSON (.names withQuery)] ∧
      RepositoryAPI.Get { sampleEnv "" 1 (["/x", "nginx", "a/x"], none) "" with q := "" }
          ⟨7, "alice"⟩ =
        [.readCache, .serveJSON (.names withoutQuery)] ∧
      withQuery.Sublist withoutQuery ∧
      ∀ r ∈ withQuery, r ∈ withoutQuery :=
  C7_query_result_sublist (sampleEnv "" 1 (["/x", "nginx", "a/x"], none) "") ⟨7, "alice"⟩
    "" "x" ["/x", "nginx", "a/x"] ⟨_, ⟨1, rfl, rfl, Or.inl (by decide)⟩, rfl, rfl⟩ (by decide)

/-- C8: for every repository list `L`, when both the query and the project's
name are empty, `Get` serves `L` itself: the same entries in the same order,
entries without a `/` included. -/
theorem C8_get_unfiltered (env : RepoEnv) (ra : RepositoryAPI) (L : List String)
    (h : ListsProject env ra "" L) (hq : env.q = "") :
    RepositoryAPI.Get env ra = [.readCache, .serveJSON (.names L)] := by
  rw [Get_of_ListsProject env ra "" L h, hq, selectRepos_all]

/-- C8, witness: empty project name, empty query, cache `["library/nginx", "nginx"]`. -/
theorem C8_get_unfiltered_witness :
    RepositoryAPI.Get (sampleEnv "" 1 (["library/nginx", "nginx"], none) "") ⟨7, "alice"⟩ =
      [.readCache, .serveJSON (.names ["library/nginx", "nginx"])] :=
  C8_get_unfiltered (sampleEnv "" 1 (["library/nginx", "nginx"], none) "") ⟨7, "alice"⟩
    ["library/nginx", "nginx"] ⟨_, ⟨1, rfl, rfl, Or.inl (by decide)⟩, rfl, rfl⟩ rfl

end Harbor

namespace Harbor

/-! ## The age computation of `GetManifests` -/

theorem selectRepos_total (P q : String) (L : List String) :
    ∃ body, selectRepos P q L = some body := by
  by_cases hq : q = ""
  · subst hq
    by_cases hP : P = ""
    · subst hP
      exact ⟨_, selectRepos_all L⟩
    · exact ⟨_, selectRepos_project P L hP⟩
  · exact ⟨_, selectRepos_query P q L hq⟩

end Harbor

namespace Harbor

/-! ## Claims on `RepositoryAPI.Get`: the access checks -/

/-- C3: for every valid `project_id`, `Get` answers 404 and nothing else when
the project does not exist, and 403 and nothing else when the project is not
public (`Public == 0`) and `checkProjectPermission` is false: in both runs the
cache is not read and no list is served.  A public project is listed whatever
the permission check would say: the run does not depend on it, reads the cache,
and on a successful cache read serves the selected list. -/
theorem C3_get_access_checks (env : RepoEnv) (ra : RepositoryAPI) (projectID : Int)
    (hid : env.projectIdParam = .ok projectID) :
    (env.GetProjectByID projectID = .ok none →
      RepositoryAPI.Get env ra = [.renderError 404 ""]) ∧
    (∀ p, env.GetProjectByID projectID = .ok (some p) → p.Public = 0 →
      env.checkProjectPermission ra.userID projectID = false →
      RepositoryAPI.Get env ra = [.renderError 403 ""]) ∧
    (∀ p, env.GetProjectByID projectID = .ok (some p) → p.Public ≠ 0 →
      (∀ perm ra',
        RepositoryAPI.Get { env with checkProjectPermission := perm } ra' =
          RepositoryAPI.Get env ra) ∧
      Event.readCache ∈ RepositoryAPI.Get env ra ∧
      (env.GetRepoFromCache.2 = none →
        ∃ body, selectRepos p.Name env.q env.GetRepoFromCache.1 = some body ∧
          RepositoryAPI.Get env ra = [.readCache, .serveJSON (.names body)])) := by
  refine ⟨?_, ?_, ?_⟩
  · intro hp
    simp [RepositoryAPI.Get, hid, hp]
  · intro p hp hpub hperm
    simp [RepositoryAPI.Get, hid, hp, hpub, hperm]
  · intro p hp hpub
    have hguard : ∀ b : Bool, (p.Public == 0 && b) = false := by
      intro b
      simp [hpub]
    obtain ⟨body, hbody⟩ := selectRepos_total p.Name env.q env.GetRepoFromCache.1
    refine ⟨?_, ?_, ?_⟩
    · intro perm ra'
      simp only [RepositoryAPI.Get, hid, hp, hguard]
    · simp [RepositoryAPI.Get, hid, hp, hguard, hbody]
    · intro hcache
      refine ⟨body, hbody, ?_⟩
      simp [RepositoryAPI.Get, hid, hp, hguard, hbody, hcache]

/-- C3, witness: project 1 missing; project 1 private and the anonymous caller
without permission; project 1 public. -/
theorem C3_get_access_checks_witness :
    RepositoryAPI.Get
        { sampleEnv "library" 0 (["library/nginx"], none) "" with
          GetProjectByID := fun _ => .ok none }
        ⟨-1, ""⟩ = [.renderError 404 ""] ∧
    RepositoryAPI.Get (sampleEnv "library" 0 (["library/nginx"], none) "")
        (RepositoryAPI.Prepare (sampleEnv "library" 0 (["library/nginx"], none) "")) =
      [.renderError 403 ""] ∧
    ((∀ perm ra',
        RepositoryAPI.Get
            { sampleEnv "library" 1 (["library/nginx"], none) "" with
              checkProjectPermission := perm } ra' =
          RepositoryAPI.Get (sampleEnv "library" 1 (["library/nginx"], none) "") ⟨-1, ""⟩) ∧
      Event.readCache ∈
        RepositoryAPI.Get (sampleEnv "library" 1 (["library/nginx"], none) "") ⟨-1, ""⟩ ∧
      ((sampleEnv "library" 1 (["library/nginx"], none) "").GetRepoFromCache.2 = none →
        ∃ body, selectRepos "library" "" ["library/nginx"] = some body ∧
          RepositoryAPI.Get (sampleEnv "library" 1 (["library/nginx"], none) "") ⟨-1, ""⟩ =
            [.readCache, .serveJSON (.names body)])) :=
  ⟨(C3_get_access_checks
      { sampleEnv "library" 0 (["library/nginx"], none) "" with
        GetProjectByID := fun _ => .ok none } ⟨-1, ""⟩ 1 rfl).1 rfl,
   (C3_get_access_checks (sampleEnv "library" 0 (["library/nginx"], none) "")
      (RepositoryAPI.Prepare (sampleEnv "library" 0 (["library/nginx"], none) "")) 1 rfl).2.1
      _ rfl rfl rfl,
   (C3_get_access_checks (sampleEnv "library" 1 (["library/nginx"], none) "")
      ⟨-1, ""⟩ 1 rfl).2.2 _ rfl (by decide)⟩

/-! ## Claims on `GetManifests`, `GetTags` and the error paths -/

/-- C4, on the code: when the registry answers and the manifest decodes without
error to an empty `history`, `GetManifests` ends in the run-time panic of
`mani.History[0]`; no error response is rendered by the handler. -/
theorem C4_empty_history_panics (env : RepoEnv) (ra : RepositoryAPI) (result : String)
    (mani : manifest)
    (hget : env.RegistryAPIGet (env.BuildRegistryURL env.repoName "manifests" env.tagParam)
      ra.username = .ok result)
    (hdec : env.unmarshalManifest result = (mani, none))
    (hhist : mani.History = []) :
    RepositoryAPI.GetManifests env ra =
      [.registryGet (env.BuildRegistryURL env.repoName "manifests" env.tagParam) ra.username,
       .runtimePanic "index out of range [0] with length 0"] ∧
    ∀ status text, Event.renderError status text ∉ RepositoryAPI.GetManifests env ra := by
  have h : RepositoryAPI.GetManifests env ra =
      [.registryGet (env.BuildRegistryURL env.repoName "manifests" env.tagParam) ra.username,
       .runtimePanic "index out of range [0] with length 0"] := by
    simp only [RepositoryAPI.GetManifests, hget, hdec, hhist]
  refine ⟨h, ?_⟩
  intro status text hmem
  rw [h] at hmem
  simp at hmem

/-- C4, at the failing input: the registry returns a manifest whose `history`
is `[]`. -/
theorem C4_empty_history_panics_witness :
    RepositoryAPI.GetManifests (sampleManifestEnv [] (48 * Hour)) ⟨7, "alice"⟩ =
      [.registryGet "/v2/library/nginx/manifests/latest" "alice",
       .runtimePanic "index out of range [0] with length 0"] ∧
    ∀ status text, Event.renderError status text ∉
      RepositoryAPI.GetManifests (sampleManifestEnv [] (48 * Hour)) ⟨7, "alice"⟩ :=
  C4_empty_history_panics (sampleManifestEnv [] (48 * Hour)) ⟨7, "alice"⟩
    "\x7b\"name\":\"library/nginx\",\"history\":[]\x7d"
    { Name := "library/nginx", History := [] } rfl rfl rfl

/-- C10, on the code: when the cache read of `Get` on a readable project
returns an error, the run renders the 500 error and then still serves the
selected list as JSON; when the registry call of `GetTags` fails, the run
renders the 500 error and then still serves a JSON list. -/
theorem C10_error_then_json (env : RepoEnv) (ra : RepositoryAPI) :
    (∀ p e, ReadableProject env ra p → env.GetRepoFromCache.2 = some e →
      ∃ body, selectRepos p.Name env.q env.GetRepoFromCache.1 = some body ∧
        RepositoryAPI.Get env ra =
          [.readCache, .renderError 500 "internal sever error", .serveJSON (.names body)]) ∧
    (∀ e, env.RegistryAPIGet (env.BuildRegistryURL env.repoName "tags" "list") ra.username =
        .error e →
      RepositoryAPI.GetTags env ra =
        [.registryGet (env.BuildRegistryURL env.repoName "tags" "list") ra.username,
         .renderError 500 "Failed to get repo tags", .serveJSON (.names [])]) := by
  constructor
  · rintro p e ⟨projectID, hid, hp, hperm⟩ hcache
    have hguard :
        (p.Public == 0 && !env.checkProjectPermission ra.userID projectID) = false := by
      rcases hperm with h1 | h1
      · simp [h1]
      · simp [h1]
    obtain ⟨body, hbody⟩ := selectRepos_total p.Name env.q env.GetRepoFromCache.1
    refine ⟨body, hbody, ?_⟩
    simp [RepositoryAPI.Get, hid, hp, hguard, hcache, hbody]
  · intro e he
    simp [RepositoryAPI.GetTags, he]

/-- C10, at the failing input: project `library` public, the cache read returns
an error; the registry is unreachable. -/
theorem C10_error_then_json_witness :
    (∃ body, selectRepos "library" "" ["library/nginx"] = some body ∧
      RepositoryAPI.Get
          (sampleEnv "library" 1 (["library/nginx"], some "cache unavailable") "")
          ⟨7, "alice"⟩ =
        [.readCache, .renderError 500 "internal sever error", .serveJSON (.names body)]) ∧
    RepositoryAPI.GetTags
        (sampleEnv "library" 1 (["library/nginx"], some "cache unavailable") "")
        ⟨7, "alice"⟩ =
      [.registryGet "/v2/library/nginx/tags/list" "alice",
       .renderError 500 "Failed to get repo tags", .serveJSON (.names [])] :=
  ⟨(C10_error_then_json
      (sampleEnv "library" 1 (["library/nginx"], some "cache unavailable") "")
      ⟨7, "alice"⟩).1 _ "cache unavailable" ⟨1, rfl, rfl, Or.inl (by decide)⟩ rfl,
   (C10_error_then_json
      (sampleEnv "library" 1 (["library/nginx"], some "cache unavailable") "")
      ⟨7, "alice"⟩).2 "connection refused" rfl⟩

end Harbor

namespace Harbor

/-- C5, as stated, fails for the empty old password: the session is
authenticated and `dao.CheckUserPassword` finds no user for `(1, "")`, yet
`UpdatePassword` answers 400 BadRequest, not 403 Forbidden. -/
theorem C5_counterexample :
    (samplePasswordEnv (.int 1) "" "new-secret" "").sessionUserId = .int 1 ∧
    (samplePasswordEnv (.int 1) "" "new-secret" "").CheckUserPassword "secret"
        { UserID := 1, Password := "" } = .ok none ∧
    UpdatePassword (samplePasswordEnv (.int 1) "" "new-secret" "") "secret" =
      ([.customAbort 400 "Old password is blank"], "secret") ∧
    Event.customAbort 403 "old_password_is_not_correct" ∉
      (UpdatePassword (samplePasswordEnv (.int 1) "" "new-secret" "") "secret").1 := by
  refine ⟨rfl, rfl, by decide, by decide⟩

/-- C5, amended: for every authenticated session and every old password for
which `dao.CheckUserPassword` finds no matching user, whatever the new
password: a non-empty old password is answered 403 Forbidden
(`old_password_is_not_correct`), the empty old password is answered
400 BadRequest before the DAO is consulted; in both runs
`dao.ChangeUserPassword` is not called and the store is left unchanged. -/
theorem C5_wrong_old_password (σ : Type) (env : PasswordEnv σ) (store : σ) (userID : Int)
    (hsess : env.sessionUserId = .int userID)
    (hcheck : env.CheckUserPassword store { UserID := userID, Password := env.oldPassword } =
      .ok none) :
    (env.oldPassword ≠ "" →
      (UpdatePassword env store).1 =
        [.checkUserPassword { UserID := userID, Password := env.oldPassword },
         .customAbort 403 "old_password_is_not_correct"]) ∧
    (env.oldPassword = "" →
      (UpdatePassword env store).1 = [.customAbort 400 "Old password is blank"]) ∧
    (∀ u old, Event.changeUserPassword u old ∉ (UpdatePassword env store).1) ∧
    (UpdatePassword env store).2 = store := by
  by_cases hold : env.oldPassword = ""
  · have hrun : UpdatePassword env store =
        ([.customAbort 400 "Old password is blank"], store) := by
      simp [UpdatePassword, hsess, hold]
    refine ⟨fun h => absurd hold h, fun _ => by rw [hrun], ?_, by rw [hrun]⟩
    intro u old hmem
    rw [hrun] at hmem
    simp at hmem
  · have hrun : UpdatePassword env store =
        ([.checkUserPassword { UserID := userID, Password := env.oldPassword },
          .customAbort 403 "old_password_is_not_correct"], store) := by
      simp [UpdatePassword, hsess, hold, hcheck]
    refine ⟨fun _ => by rw [hrun], fun h => absurd h hold, ?_, by rw [hrun]⟩
    intro u old hmem
    rw [hrun] at hmem
    simp at hmem

/-- C5, witness: user 1 with stored password `secret` submits the old password
`guess`. -/
theorem C5_wrong_old_password_witness :
    ((samplePasswordEnv (.int 1) "guess" "new-secret" "").oldPassword ≠ "" →
      (UpdatePassword (samplePasswordEnv (.int 1) "guess" "new-secret" "") "secret").1 =
        [.checkUserPassword { UserID := 1, Password := "guess" },
         .customAbort 403 "old_password_is_not_correct"]) ∧
    ((samplePasswordEnv (.int 1) "guess" "new-secret" "").oldPassword = "" →
      (UpdatePassword (samplePasswordEnv (.int 1) "guess" "new-secret" "") "secret").1 =
        [.customAbort 400 "Old password is blank"]) ∧
    (∀ u old, Event.changeUserPassword u old ∉
      (UpdatePassword (samplePasswordEnv (.int 1) "guess" "new-secret" "") "secret").1) ∧
    (UpdatePassword (samplePasswordEnv (.int 1) "guess" "new-secret" "") "secret").2 =
      "secret" :=
  C5_wrong_old_password String (samplePasswordEnv (.int 1) "guess" "new-secret" "") "secret" 1
    rfl rfl

/-- C6: for every reset token that `dao.GetUser` resolves to no user, and for
the empty token, whatever the new password, `ResetPassword` answers
400 BadRequest, does not call `dao.ResetUserPassword`, and leaves the store
unchanged. -/
theorem C6_unknown_reset_token (σ : Type) (env : PasswordEnv σ) (store : σ)
    (htoken : env.resetUUID = "" ∨
      env.GetUser store { ResetUUID := env.resetUUID } = .ok none) :
    ((ResetPassword env store).1 = [.customAbort 400 "Reset uuid is blank."] ∨
      (ResetPassword env store).1 =
        [.getUser { ResetUUID := env.resetUUID }, .customAbort 400 "User does not exist"]) ∧
    (∀ u, Event.resetUserPassword u ∉ (ResetPassword env store).1) ∧
    (ResetPassword env store).2 = store := by
  have hrun : ResetPassword env store = ([.customAbort 400 "Reset uuid is blank."], store) ∨
      ResetPassword env store =
        ([.getUser { ResetUUID := env.resetUUID }, .customAbort 400 "User does not exist"],
         store) := by
    by_cases hempty : env.resetUUID = ""
    · left
      simp [ResetPassword, hempty]
    · rcases htoken with h | h
      · exact absurd h hempty
      · right
        simp [ResetPassword, hempty, h]
  rcases hrun with hrun | hrun
  · refine ⟨Or.inl (by rw [hrun]), ?_, by rw [hrun]⟩
    intro u hmem
    rw [hrun] at hmem
    simp at hmem
  · refine ⟨Or.inr (by rw [hrun]), ?_, by rw [hrun]⟩
    intro u hmem
    rw [hrun] at hmem
    simp at hmem

/-- C6, witness: the store holds the token `tok-1`; the request carries the
unknown token `tok-2`. -/
theorem C6_unknown_reset_token_witness :
    ((ResetPassword (samplePasswordEnv .absent "" "new-secret" "tok-2") "secret").1 =
        [.customAbort 400 "Reset uuid is blank."] ∨
      (ResetPassword (samplePasswordEnv .absent "" "new-secret" "tok-2") "secret").1 =
        [.getUser { ResetUUID := "tok-2" }, .customAbort 400 "User does not exist"]) ∧
    (∀ u, Event.resetUserPassword u ∉
      (ResetPassword (samplePasswordEnv .absent "" "new-secret" "tok-2") "secret").1) ∧
    (ResetPassword (samplePasswordEnv .absent "" "new-secret" "tok-2") "secret").2 =
      "secret" :=
  C6_unknown_reset_token String (samplePasswordEnv .absent "" "new-secret" "tok-2") "secret"
    (Or.inr rfl)

end Harbor
